import Mathlib

/-!
Shallow embedding of the `SentimentService` module of the insyte-pulse
feedback-analytics application, together with proofs of the behavioural
properties stated in its specification.

Text is modelled as `List Char`.  JavaScript's `toLowerCase`, the regex
`/[^\w\s]/g` replacement, `split(/\s+/)`, substring `includes`, and the
whole-word regex `\b…\b` counting are embedded as executable functions on
character lists; numeric values (confidence scores, percentages) are
modelled as rationals, with `Math.round x = ⌊x + 1/2⌋` and JavaScript's
stable `Array.prototype.sort` modelled by a stable insertion sort.
-/

namespace SentimentService

/-- The three sentiment values of the `SentimentAnalysis` interface. -/
inductive Sentiment
  | positive
  | neutral
  | negative
deriving DecidableEq

/-- The four urgency levels of the `FeedbackCategorization` interface. -/
inductive Urgency
  | low
  | medium
  | high
  | critical
deriving DecidableEq

/-- The six emotion scores of `SentimentAnalysis.emotions`. -/
structure Emotions where
  joy : ℚ
  anger : ℚ
  fear : ℚ
  sadness : ℚ
  surprise : ℚ
  disgust : ℚ
deriving DecidableEq

/-- Result record of `SentimentService.analyzeSentiment`.  Keywords are kept
as character lists (the tokens the code extracts). -/
structure SentimentAnalysis where
  sentiment : Sentiment
  confidence : ℚ
  categories : List String
  keywords : List (List Char)
  emotions : Emotions
deriving DecidableEq

/-- Result record of `SentimentService.categorizeFeedback`. -/
structure FeedbackCategorization where
  primaryCategory : String
  secondaryCategories : List String
  urgency : Urgency
  actionRequired : Bool
  suggestedActions : List String
deriving DecidableEq

/-- ASCII word character, the `\w` class of the JavaScript regexes used by
the service: letters, digits and underscore. -/
def isWordChar (c : Char) : Bool :=
  (65 ≤ c.toNat && c.toNat ≤ 90) || (97 ≤ c.toNat && c.toNat ≤ 122) ||
    (48 ≤ c.toNat && c.toNat ≤ 57) || c = '_'

/-- ASCII upper-case letter. -/
def isAsciiUpper (c : Char) : Bool :=
  65 ≤ c.toNat && c.toNat ≤ 90

/-- Model of JavaScript `toLowerCase` on the character range the service's
lexicons live in: ASCII upper-case letters are shifted to lower case and
every other character is left unchanged. -/
def toLowerChar (c : Char) : Char :=
  if isAsciiUpper c then Char.ofNat (c.toNat + 32) else c

/-- Lower-case a whole text, character by character. -/
def lowerText (text : List Char) : List Char :=
  text.map toLowerChar

/-- One step of the `/[^\w\s]/g → ' '` replacement: characters that are
neither word characters nor whitespace become spaces. -/
def cleanChar (c : Char) : Char :=
  if isWordChar c || c.isWhitespace then c else ' '

/-- Model of `text.toLowerCase().replace(/[^\w\s]/g, ' ')`. -/
def cleanText (text : List Char) : List Char :=
  (lowerText text).map cleanChar

/-- Accumulator-based splitter behind `splitWs`: `cur` holds the current
token reversed. -/
def splitWsAux (cur : List Char) : List Char → List (List Char)
  | [] => [cur.reverse]
  | c :: cs =>
    if c.isWhitespace then cur.reverse :: splitWsAux [] cs
    else splitWsAux (c :: cur) cs

/-- Model of `split(/\s+/)` up to empty tokens: every maximal whitespace-free run of
the input appears, and runs of whitespace contribute empty tokens which the
callers' length filters discard, so the composite pipelines agree with the
JavaScript ones. -/
def splitWs (s : List Char) : List (List Char) :=
  splitWsAux [] s

/-- Tokens of `analyzeSentiment`: clean, split, keep tokens of length > 2. -/
def sentimentTokens (text : List Char) : List (List Char) :=
  (splitWs (cleanText text)).filter (fun w => 2 < w.length)

/-- The `POSITIVE_KEYWORDS` lexicon of the service, as character lists. -/
def POSITIVE_KEYWORDS : List (List Char) :=
  (["excellent", "amazing", "fantastic", "wonderful", "great", "good", "love",
    "perfect", "outstanding", "brilliant", "awesome", "superb", "magnificent",
    "terrific", "pleased", "satisfied", "happy", "delighted", "impressed",
    "recommend", "helpful", "friendly", "professional", "efficient", "quick",
    "fast", "easy", "smooth", "seamless", "intuitive"] : List String).map String.data

/-- The `NEGATIVE_KEYWORDS` lexicon of the service. -/
def NEGATIVE_KEYWORDS : List (List Char) :=
  (["terrible", "awful", "horrible", "bad", "worst", "hate", "disgusting",
    "pathetic", "useless", "broken", "failed", "error", "problem", "issue",
    "bug", "slow", "difficult", "confusing", "frustrated", "disappointed",
    "angry", "upset", "annoyed", "poor", "lacking", "missing", "wrong",
    "incorrect", "unacceptable", "unprofessional", "rude", "unhelpful"] : List String).map String.data

/-- The `NEUTRAL_KEYWORDS` lexicon of the service. -/
def NEUTRAL_KEYWORDS : List (List Char) :=
  (["okay", "fine", "average", "normal", "standard", "typical", "regular",
    "moderate", "acceptable", "adequate", "sufficient", "reasonable", "fair",
    "decent", "alright"] : List String).map String.data

/-- Positive counter of the `forEach` scoring loop: a token increments it
exactly when it is in the positive lexicon. -/
def positiveScore (ws : List (List Char)) : ℕ :=
  ws.countP (fun w => decide (w ∈ POSITIVE_KEYWORDS))

/-- Negative counter: the `else if` branch fires when the token is in the
negative lexicon and was not already counted as positive. -/
def negativeScore (ws : List (List Char)) : ℕ :=
  ws.countP (fun w => decide (w ∈ NEGATIVE_KEYWORDS) && !decide (w ∈ POSITIVE_KEYWORDS))

/-- Neutral counter: the final `else if` branch of the scoring loop. -/
def neutralScore (ws : List (List Char)) : ℕ :=
  ws.countP (fun w => decide (w ∈ NEUTRAL_KEYWORDS) &&
    !decide (w ∈ POSITIVE_KEYWORDS) && !decide (w ∈ NEGATIVE_KEYWORDS))

/-- Sentiment/confidence decision of `analyzeSentiment`, from the three
counters. -/
def sentimentDecision (positive negative neutral : ℕ) : Sentiment × ℚ :=
  let totalScore := positive + negative + neutral
  if totalScore = 0 then (.neutral, 0.5)
  else if negative < positive then
    (.positive, min 0.95 (0.5 + ((positive : ℚ) / (totalScore : ℚ)) * 0.5))
  else if positive < negative then
    (.negative, min 0.95 (0.5 + ((negative : ℚ) / (totalScore : ℚ)) * 0.5))
  else (.neutral, 0.6)

/-- Word-character status of the character just outside a regex match,
with `none` at the ends of the text (where `\b` sees a non-word side). -/
def wordAt : Option Char → Bool
  | none => false
  | some c => isWordChar c

/-- Fuelled scanner behind `countWholeWord`: counts non-overlapping,
left-to-right matches of the literal `kw` that are flanked by `\b`
boundaries, exactly as a global `\bkw\b` regex does.  `prev` is the
character preceding the current position. -/
def countWWAux (kw : List Char) : ℕ → Option Char → List Char → ℕ
  | 0, _, _ => 0
  | _ + 1, _, [] => 0
  | fuel + 1, prev, c :: rest =>
    if kw.isPrefixOf (c :: rest) && (wordAt prev != wordAt (some c)) &&
        (wordAt (kw.getLast?) != wordAt ((c :: rest).drop kw.length).head?) then
      1 + countWWAux kw fuel kw.getLast? ((c :: rest).drop kw.length)
    else
      countWWAux kw fuel (some c) rest

/-- Number of matches of `new RegExp("\\b" + kw + "\\b", "gi")` against a
(lower-cased) text. -/
def countWholeWord (kw s : List Char) : ℕ :=
  countWWAux kw s.length none s

/-- The `CATEGORY_KEYWORDS` table of the service, in declaration order. -/
def CATEGORY_KEYWORDS : List (String × List String) :=
  [("User Experience", ["ui", "ux", "interface", "design", "layout",
      "navigation", "usability", "user-friendly"]),
   ("Performance", ["speed", "fast", "slow", "loading", "performance", "lag",
      "responsive", "quick"]),
   ("Customer Service", ["support", "service", "staff", "help", "assistance",
      "representative", "agent"]),
   ("Product Quality", ["quality", "product", "feature", "functionality",
      "reliability", "durability"]),
   ("Pricing", ["price", "cost", "expensive", "cheap", "value", "money",
      "affordable", "pricing"]),
   ("Technical Issues", ["bug", "error", "crash", "broken", "glitch",
      "technical", "malfunction"]),
   ("Delivery/Shipping", ["delivery", "shipping", "package", "arrived",
      "delayed", "on-time"]),
   ("Communication", ["communication", "information", "updates",
      "notification", "contact"]),
   ("Accessibility", ["accessibility", "accessible", "disability",
      "screen reader", "keyboard"]),
   ("Security", ["security", "privacy", "safe", "secure", "protection",
      "data", "personal"])]

/-- Score of one category: the `reduce` over its keyword list, adding the
whole-word match count of each keyword. -/
def categoryScore (lower : List Char) (kws : List String) : ℕ :=
  kws.foldl (fun acc kw => acc + countWholeWord kw.data lower) 0

/-- Stable descending insertion, by key: an element is placed before the
first element whose key is at most its own, so earlier elements stay
ahead of later elements with the same key. -/
def insertDescBy {α : Type} (key : α → ℕ) (x : α) : List α → List α
  | [] => [x]
  | y :: ys => if key y ≤ key x then x :: y :: ys else y :: insertDescBy key x ys

/-- Stable descending sort by key, modelling JavaScript's stable
`sort((a, b) => key(b) - key(a))`. -/
def sortDescBy {α : Type} (key : α → ℕ) : List α → List α
  | [] => []
  | x :: xs => insertDescBy key x (sortDescBy key xs)

/-- The `foundCategories` array of `extractCategories`: each category of
`CATEGORY_KEYWORDS`, in declaration order, paired with its score, kept
when the score is positive. -/
def foundCategories (text : List Char) : List (String × ℕ) :=
  (CATEGORY_KEYWORDS.map (fun p => (p.1, categoryScore (lowerText text) p.2))).filter
    (fun p => 0 < p.2)

/-- Model of `SentimentService.extractCategories`: score the ten categories against
the lower-cased text, keep positive scores, sort descending (stable), map
to the names and keep the first three. -/
def extractCategories (text : List Char) : List String :=
  ((sortDescBy (fun p => p.2) (foundCategories text)).map (fun p => p.1)).take 3

/-- Stop-word list of `extractKeywords`. -/
def stopWords : List (List Char) :=
  (["this", "that", "with", "have", "will", "from", "they", "know", "want",
    "been", "good", "much", "some", "time", "very", "when", "come", "here",
    "just", "like", "long", "make", "many", "over", "such", "take", "than",
    "them", "well", "were"] : List String).map String.data

/-- Insert one occurrence of `k` into the frequency table, modelling
`wordCount[word] = (wordCount[word] || 0) + 1` on an insertion-ordered
association list. -/
def bump (k : List Char) : List (List Char × ℕ) → List (List Char × ℕ)
  | [] => [(k, 1)]
  | (k', n) :: rest => if k = k' then (k', n + 1) :: rest else (k', n) :: bump k rest

/-- Frequency table of a token list, keys in first-occurrence order. -/
def countOcc (ws : List (List Char)) : List (List Char × ℕ) :=
  ws.foldl (fun m w => bump w m) []

/-- The `wordCount` table of `extractKeywords`: tokens of length > 3 of the
cleaned text, stop words removed, tallied in first-occurrence order. -/
def keywordTable (text : List Char) : List (List Char × ℕ) :=
  countOcc (((splitWs (cleanText text)).filter (fun w => 3 < w.length)).filter
    (fun w => !decide (w ∈ stopWords)))

/-- Model of `SentimentService.extractKeywords`: the word-count table ranked by
frequency (stable descending sort, as `sort(([, a], [, b]) => b - a)` on
the entries), first five words kept. -/
def extractKeywords (text : List Char) : List (List Char) :=
  ((sortDescBy (fun p => p.2) (keywordTable text)).take 5).map (fun p => p.1)

/-- Substring test, modelling JavaScript `String.prototype.includes`. -/
def containsSub (s pat : List Char) : Bool :=
  pat.isPrefixOf s ||
    match s with
    | [] => false
    | _ :: t => containsSub t pat

/-- The `EMOTION_KEYWORDS` table of the service, in declaration order. -/
def EMOTION_KEYWORDS : List (String × List String) :=
  [("joy", ["happy", "joy", "excited", "thrilled", "delighted", "pleased",
      "cheerful", "elated"]),
   ("anger", ["angry", "mad", "furious", "irritated", "annoyed", "frustrated",
      "outraged"]),
   ("fear", ["scared", "afraid", "worried", "anxious", "concerned", "nervous",
      "fearful"]),
   ("sadness", ["sad", "disappointed", "upset", "depressed", "unhappy",
      "miserable", "down"]),
   ("surprise", ["surprised", "shocked", "amazed", "astonished", "unexpected",
      "wow"]),
   ("disgust", ["disgusted", "revolted", "appalled", "repulsed", "sickened",
      "nauseated"])]

/-- Score of one emotion: each keyword contained in the lower-cased text
adds 1, and the total is scaled by 0.3 and capped at 1. -/
def emotionScore (lower : List Char) (kws : List String) : ℚ :=
  min 1 ((kws.countP (fun kw => containsSub lower kw.data) : ℚ) * 0.3)

/-- Keyword list of one emotion, by name. -/
def emotionKws (name : String) : List String :=
  ((EMOTION_KEYWORDS.find? (fun p => p.1 = name)).map (fun p => p.2)).getD []

/-- Model of `SentimentService.analyzeEmotions`. -/
def analyzeEmotions (text : List Char) : Emotions :=
  let lower := lowerText text
  { joy := emotionScore lower (emotionKws "joy")
    anger := emotionScore lower (emotionKws "anger")
    fear := emotionScore lower (emotionKws "fear")
    sadness := emotionScore lower (emotionKws "sadness")
    surprise := emotionScore lower (emotionKws "surprise")
    disgust := emotionScore lower (emotionKws "disgust") }

/-- Model of `SentimentService.analyzeSentiment`. -/
def analyzeSentiment (text : List Char) : SentimentAnalysis :=
  let ws := sentimentTokens text
  let d := sentimentDecision (positiveScore ws) (negativeScore ws) (neutralScore ws)
  { sentiment := d.1
    confidence := d.2
    categories := extractCategories text
    keywords := extractKeywords text
    emotions := analyzeEmotions text }

/-- Urgent vocabulary of `categorizeFeedback`. -/
def urgentKeywords : List (List Char) :=
  (["urgent", "critical", "emergency", "immediately", "asap", "broken",
    "not working"] : List String).map String.data

/-- High-priority vocabulary of `categorizeFeedback`. -/
def highPriorityKeywords : List (List Char) :=
  (["important", "serious", "major", "significant", "problem", "issue"] : List String).map String.data

/-- Urgency decision of `categorizeFeedback`: the first matching rule of
the `if`/`else if` chain wins. -/
def urgencyOf (text : List Char) (s : SentimentAnalysis) : Urgency :=
  let lower := lowerText text
  if urgentKeywords.any (fun kw => containsSub lower kw) then .critical
  else if s.sentiment = .negative ∧ s.confidence > 0.8 then .high
  else if highPriorityKeywords.any (fun kw => containsSub lower kw) then .medium
  else if s.sentiment = .negative then .medium
  else .low

/-- Category-specific actions: the `switch (category)` block. -/
def categoryActions (category : String) : List String :=
  if category = "Technical Issues" then
    ["Forward to technical support team", "Create bug report if applicable"]
  else if category = "Customer Service" then
    ["Review with customer service manager", "Provide additional training if needed"]
  else if category = "Product Quality" then
    ["Forward to product development team", "Consider for product roadmap"]
  else if category = "User Experience" then
    ["Share with UX/UI design team", "Consider for next design iteration"]
  else if category = "Performance" then
    ["Forward to engineering team", "Monitor system performance metrics"]
  else []

/-- Deduplication keeping first occurrences, with the already-kept
elements as `seen`; models iterating a JavaScript `Set` built from the
list, which preserves insertion order. -/
def dedupAux (seen : List String) : List String → List String
  | [] => []
  | x :: xs => if x ∈ seen then dedupAux seen xs else x :: dedupAux (x :: seen) xs

/-- Model of `[...new Set(actions)]`. -/
def dedupFirst (l : List String) : List String :=
  dedupAux [] l

/-- Model of `SentimentService.generateSuggestedActions`: sentiment-based actions,
then category-specific actions, deduplicated and truncated to five. -/
def generateSuggestedActions (s : SentimentAnalysis) (category : String)
    (urgency : Urgency) : List String :=
  let base : List String :=
    if s.sentiment = .negative then
      ["Follow up with customer within 24 hours", "Investigate the reported issue"] ++
        (if urgency = .critical then
          ["Escalate to management immediately", "Provide immediate resolution or workaround"]
        else [])
    else if s.sentiment = .positive then
      ["Thank the customer for positive feedback", "Share feedback with relevant team",
       "Consider featuring as testimonial"]
    else []
  (dedupFirst (base ++ categoryActions category)).take 5

/-- Model of `categories[0] || "General Feedback"`: the empty string is falsy in
JavaScript, so it also falls back to the default. -/
def primaryCategoryOf (categories : List String) : String :=
  match categories.head? with
  | none => "General Feedback"
  | some c => if c = "" then "General Feedback" else c

/-- Model of `SentimentService.categorizeFeedback`. -/
def categorizeFeedback (text : List Char) (s : SentimentAnalysis) :
    FeedbackCategorization :=
  let categories := s.categories
  let primaryCategory := primaryCategoryOf categories
  let secondaryCategories := (categories.drop 1).take 2
  let urgency := urgencyOf text s
  let actionRequired :=
    urgency = .critical ∨ urgency = .high ∨
      (s.sentiment = .negative ∧ s.confidence > 0.7)
  { primaryCategory
    secondaryCategories
    urgency
    actionRequired := decide actionRequired
    suggestedActions := generateSuggestedActions s primaryCategory urgency }

/-- One analysed response item as consumed by `generateInsights`: the
stored sentiment (absent when the response has none) and the metadata the
function reads. -/
structure ResponseItem where
  sentiment : Option Sentiment
  urgency : Option Urgency
  actionRequired : Bool
  categories : List String
deriving DecidableEq

/-- One step of the sentiment tally of `generateInsights`: a response
increments the bucket of its sentiment, and a response without a sentiment
increments nothing. -/
def sentimentStep (acc : ℕ × ℕ × ℕ) (r : ResponseItem) : ℕ × ℕ × ℕ :=
  match r.sentiment with
  | some .positive => (acc.1 + 1, acc.2.1, acc.2.2)
  | some .neutral => (acc.1, acc.2.1 + 1, acc.2.2)
  | some .negative => (acc.1, acc.2.1, acc.2.2 + 1)
  | none => acc

/-- Sentiment tallies of `generateInsights` over the whole collection. -/
def sentimentCounts (rs : List ResponseItem) : ℕ × ℕ × ℕ :=
  rs.foldl sentimentStep (0, 0, 0)

/-- The `overallSentiment` field of `generateInsights` as the triple
(positive, neutral, negative): each bucket is `Math.round(count/total×100)`
with `Math.round x = ⌊x + 1/2⌋`, and the empty collection takes the early
all-zero return. -/
def overallSentiment (rs : List ResponseItem) : ℤ × ℤ × ℤ :=
  if rs.length = 0 then (0, 0, 0)
  else
    let c := sentimentCounts rs
    (round (((c.1 : ℚ) / (rs.length : ℚ)) * 100),
     round (((c.2.1 : ℚ) / (rs.length : ℚ)) * 100),
     round (((c.2.2 : ℚ) / (rs.length : ℚ)) * 100))

/-- The three trend values of `trendAnalysis.sentimentTrend`. -/
inductive Trend
  | improving
  | declining
  | stable
deriving DecidableEq

/-- Fraction of positive items in a window. -/
def positiveFraction (rs : List ResponseItem) : ℚ :=
  ((rs.filter (fun r => r.sentiment = some .positive)).length : ℚ) / (rs.length : ℚ)

/-- The `sentimentTrend` field of `generateInsights`: compare the positive
fraction of `slice(-10)` against that of `slice(0, -10)` when both windows
are non-empty; the empty collection takes the early `stable` return. -/
def sentimentTrend (rs : List ResponseItem) : Trend :=
  if rs.length = 0 then .stable
  else
    let recent := rs.drop (rs.length - 10)
    let older := rs.take (rs.length - 10)
    if 0 < recent.length ∧ 0 < older.length then
      let recentPositive := positiveFraction recent
      let olderPositive := positiveFraction older
      if olderPositive + 0.1 < recentPositive then .improving
      else if recentPositive < olderPositive - 0.1 then .declining
      else .stable
    else .stable

/-! ### Specification-side definitions

Each `…Spec` definition below transcribes the wording of one claim of the
specification, to be compared against the corresponding definition
transcribed from the source. -/

/-- Claim wording: the number of exact-match hits in the positive lexicon. -/
def positiveHits (ws : List (List Char)) : ℕ :=
  ws.countP (fun w => decide (w ∈ POSITIVE_KEYWORDS))

/-- Claim wording: the number of exact-match hits in the negative lexicon. -/
def negativeHits (ws : List (List Char)) : ℕ :=
  ws.countP (fun w => decide (w ∈ NEGATIVE_KEYWORDS))

/-- Claim wording: the number of exact-match hits in the neutral lexicon. -/
def neutralHits (ws : List (List Char)) : ℕ :=
  ws.countP (fun w => decide (w ∈ NEUTRAL_KEYWORDS))

/-- Sentiment and confidence as the specification words them: tokenize by
lower-casing, replacing non-word non-whitespace characters with spaces,
splitting on whitespace and dropping tokens of length at most 2; count the
hits in the three lexicons; if all three counts are zero return neutral at
confidence 0.5, else if positive exceeds negative return positive at
`min 0.95 (0.5 + positive/(positive+negative+neutral) × 0.5)`, else if
negative exceeds positive the analogous negative result, else neutral at
confidence 0.6. -/
def sentimentSpec (text : List Char) : Sentiment × ℚ :=
  let ws := (splitWs (cleanText text)).filter (fun w => 2 < w.length)
  let p := positiveHits ws
  let n := negativeHits ws
  let m := neutralHits ws
  if p = 0 ∧ n = 0 ∧ m = 0 then (.neutral, 0.5)
  else if n < p then
    (.positive, min 0.95 (0.5 + ((p : ℚ) / ((p + n + m : ℕ) : ℚ)) * 0.5))
  else if p < n then
    (.negative, min 0.95 (0.5 + ((n : ℚ) / ((p + n + m : ℕ) : ℚ)) * 0.5))
  else (.neutral, 0.6)

/-- Urgency as the specification words it: the first matching rule of the
ordered list wins — urgent vocabulary in the lower-cased text gives
`critical`; negative sentiment with confidence above 0.8 gives `high`;
high-priority vocabulary gives `medium`; negative sentiment gives
`medium`; otherwise `low`. -/
def urgencySpec (text : List Char) (s : SentimentAnalysis) : Urgency :=
  let lower := lowerText text
  if ((["urgent", "critical", "emergency", "immediately", "asap", "broken",
      "not working"] : List String).map String.data).any (fun kw => containsSub lower kw) then
    .critical
  else if s.sentiment = .negative ∧ 0.8 < s.confidence then .high
  else if ((["important", "serious", "major", "significant", "problem",
      "issue"] : List String).map String.data).any (fun kw => containsSub lower kw) then
    .medium
  else if s.sentiment = .negative then .medium
  else .low

/-- Categories as the specification words them: keep the categories with a
positive whole-word count, sort by count descending (ties keeping the
declaration order, i.e. a stable sort), and take the first three. -/
def extractCategoriesSpec (text : List Char) : List String :=
  ((sortDescBy (fun p => p.2) (foundCategories text)).take 3).map (fun p => p.1)

/-- Sentiment trend as the specification words it: compare the positive
fraction of the last ten items against that of all earlier items; when
either window is empty the trend is stable. -/
def sentimentTrendSpec (rs : List ResponseItem) : Trend :=
  let recent := rs.drop (rs.length - 10)
  let older := rs.take (rs.length - 10)
  if recent = [] ∨ older = [] then .stable
  else
    let r := positiveFraction recent
    let o := positiveFraction older
    if o + 0.1 < r then .improving
    else if r < o - 0.1 then .declining
    else .stable

/-- Overall sentiment as the specification words it: each bucket is
`round(c/n × 100)` where `c` is the number of items whose sentiment equals
that bucket's value and `n` is the total number of items. -/
def overallSentimentSpec (rs : List ResponseItem) : ℤ × ℤ × ℤ :=
  (round ((((rs.filter (fun r => r.sentiment = some .positive)).length : ℚ) /
      (rs.length : ℚ)) * 100),
   round ((((rs.filter (fun r => r.sentiment = some .neutral)).length : ℚ) /
      (rs.length : ℚ)) * 100),
   round ((((rs.filter (fun r => r.sentiment = some .negative)).length : ℚ) /
      (rs.length : ℚ)) * 100))

/-- A 20-item collection whose first ten items are 20% positive and whose
last ten items are 80% positive. -/
def exampleTrendItems : List ResponseItem :=
  (List.replicate 2 ⟨some .positive, none, false, []⟩ ++
    List.replicate 8 ⟨some .negative, none, false, []⟩) ++
  (List.replicate 8 ⟨some .positive, none, false, []⟩ ++
    List.replicate 2 ⟨some .negative, none, false, []⟩)

/-- A collection with exactly one item of each sentiment. -/
def exampleOneEach : List ResponseItem :=
  [⟨some .positive, none, false, []⟩, ⟨some .neutral, none, false, []⟩,
   ⟨some .negative, none, false, []⟩]

/-! ### Properties of the stable descending sort -/

theorem insertDescBy_perm {α : Type} (key : α → ℕ) (x : α) (l : List α) :
    List.Perm (insertDescBy key x l) (x :: l) := by
  induction l with
  | nil => exact List.Perm.refl _
  | cons y ys ih =>
    unfold insertDescBy
    split
    · exact List.Perm.refl _
    · exact (ih.cons y).trans (List.Perm.swap x y ys)

theorem sortDescBy_perm {α : Type} (key : α → ℕ) (l : List α) :
    List.Perm (sortDescBy key l) l := by
  induction l with
  | nil => exact List.Perm.refl _
  | cons x xs ih => exact (insertDescBy_perm key x _).trans (ih.cons x)

theorem insertDescBy_sorted {α : Type} (key : α → ℕ) (x : α) {l : List α}
    (h : List.Sorted (fun a b => key b ≤ key a) l) :
    List.Sorted (fun a b => key b ≤ key a) (insertDescBy key x l) := by
  induction l with
  | nil => simp [insertDescBy]
  | cons y ys ih =>
    rw [List.sorted_cons] at h
    unfold insertDescBy
    split
    · rename_i hxy
      rw [List.sorted_cons]
      refine ⟨?_, List.sorted_cons.mpr h⟩
      intro b hb
      rcases List.mem_cons.mp hb with rfl | hb2
      · exact hxy
      · exact le_trans (h.1 b hb2) hxy
    · rename_i hxy
      rw [List.sorted_cons]
      refine ⟨?_, ih h.2⟩
      intro b hb
      rcases List.mem_cons.mp ((insertDescBy_perm key x ys).mem_iff.mp hb) with rfl | hb2
      · omega
      · exact h.1 b hb2

theorem sortDescBy_sorted {α : Type} (key : α → ℕ) (l : List α) :
    List.Sorted (fun a b => key b ≤ key a) (sortDescBy key l) := by
  induction l with
  | nil => simp [sortDescBy]
  | cons x xs ih => exact insertDescBy_sorted key x ih

theorem insertDescBy_filter {α : Type} (key : α → ℕ) (x : α) {l : List α} (q : ℕ)
    (h : List.Sorted (fun a b => key b ≤ key a) l) :
    (insertDescBy key x l).filter (fun a => decide (key a = q)) =
      if key x = q then x :: l.filter (fun a => decide (key a = q))
      else l.filter (fun a => decide (key a = q)) := by
  induction l with
  | nil => by_cases hx : key x = q <;> simp [insertDescBy, hx]
  | cons y ys ih =>
    rw [List.sorted_cons] at h
    unfold insertDescBy
    split
    · rename_i hxy
      by_cases hx : key x = q <;> simp [List.filter_cons, hx]
    · rename_i hxy
      rw [List.filter_cons]
      by_cases hy : key y = q <;> by_cases hx : key x = q <;>
        (simp [hy, hx, List.filter_cons, ih h.2]; try omega)

theorem sortDescBy_filter {α : Type} (key : α → ℕ) (l : List α) (q : ℕ) :
    (sortDescBy key l).filter (fun a => decide (key a = q)) =
      l.filter (fun a => decide (key a = q)) := by
  induction l with
  | nil => rfl
  | cons x xs ih =>
    show (insertDescBy key x (sortDescBy key xs)).filter _ = _
    rw [insertDescBy_filter key x q (sortDescBy_sorted key xs), ih, List.filter_cons]
    by_cases hx : key x = q <;> simp [hx]

/-! ### Properties of the first-occurrence deduplication -/

theorem dedupAux_cons_mem {seen : List String} {x : String} (l : List String)
    (h : x ∈ seen) : dedupAux seen (x :: l) = dedupAux seen l := by
  simp [dedupAux, h]

theorem dedupAux_cons_not_mem {seen : List String} {x : String} (l : List String)
    (h : x ∉ seen) : dedupAux seen (x :: l) = x :: dedupAux (x :: seen) l := by
  simp [dedupAux, h]

theorem dedupAux_nodup (seen : List String) (l : List String) :
    (dedupAux seen l).Nodup ∧ ∀ x ∈ dedupAux seen l, x ∉ seen := by
  induction l generalizing seen with
  | nil => simp [dedupAux]
  | cons x xs ih =>
    unfold dedupAux
    split
    · rename_i hx
      exact ⟨(ih seen).1, (ih seen).2⟩
    · rename_i hx
      refine ⟨List.nodup_cons.mpr ⟨fun hmem => ?_, (ih (x :: seen)).1⟩, ?_⟩
      · exact (ih (x :: seen)).2 x hmem (List.mem_cons_self x seen)
      · intro y hy
        rcases List.mem_cons.mp hy with rfl | hy2
        · exact hx
        · intro hseen
          exact (ih (x :: seen)).2 y hy2 (List.mem_cons_of_mem x hseen)

theorem dedupFirst_nodup (l : List String) : (dedupFirst l).Nodup :=
  (dedupAux_nodup [] l).1

theorem dedupAux_sublist (seen : List String) (l : List String) :
    (dedupAux seen l).Sublist l := by
  induction l generalizing seen with
  | nil => simp [dedupAux]
  | cons x xs ih =>
    unfold dedupAux
    split
    · exact (ih seen).trans (List.sublist_cons_self x xs)
    · exact (ih (x :: seen)).cons₂ x

theorem dedupAux_mem (seen : List String) (l : List String) (a : String) :
    a ∈ dedupAux seen l ↔ a ∈ l ∧ a ∉ seen := by
  induction l generalizing seen with
  | nil => simp [dedupAux]
  | cons x xs ih =>
    unfold dedupAux
    split
    · rename_i hx
      rw [ih seen]
      constructor
      · exact fun h => ⟨List.mem_cons_of_mem x h.1, h.2⟩
      · rintro ⟨h1, h2⟩
        rcases List.mem_cons.mp h1 with rfl | h3
        · exact absurd hx h2
        · exact ⟨h3, h2⟩
    · rename_i hx
      rw [List.mem_cons, ih (x :: seen)]
      constructor
      · rintro (rfl | ⟨h1, h2⟩)
        · exact ⟨List.mem_cons_self _ _, hx⟩
        · exact ⟨List.mem_cons_of_mem x h1, fun hs => h2 (List.mem_cons_of_mem x hs)⟩
      · rintro ⟨h1, h2⟩
        rcases List.mem_cons.mp h1 with rfl | h3
        · exact Or.inl rfl
        · by_cases hax : a = x
          · exact Or.inl hax
          · exact Or.inr ⟨h3, fun hs =>
              h2 (by rcases List.mem_cons.mp hs with h | h; exact absurd h hax; exact h)⟩

theorem dedupAux_congr (seen seen' : List String) (l : List String)
    (h : ∀ b, b ∈ seen ↔ b ∈ seen') : dedupAux seen l = dedupAux seen' l := by
  induction l generalizing seen seen' with
  | nil => rfl
  | cons x xs ih =>
    unfold dedupAux
    by_cases hx : x ∈ seen
    · rw [if_pos hx, if_pos ((h x).mp hx)]
      exact ih seen seen' h
    · rw [if_neg hx, if_neg (fun hx2 => hx ((h x).mpr hx2))]
      refine congrArg (x :: ·) (ih (x :: seen) (x :: seen') fun b => ?_)
      rw [List.mem_cons, List.mem_cons, h b]

theorem dedupAux_filter (a : String) (seen : List String) (l : List String) :
    dedupAux (a :: seen) l = dedupAux seen (l.filter (fun b => decide (b ≠ a))) := by
  induction l generalizing seen with
  | nil => rfl
  | cons x xs ih =>
    by_cases hxa : x = a
    · subst hxa
      rw [show (x :: xs).filter (fun b => decide (b ≠ x)) =
            xs.filter (fun b => decide (b ≠ x)) from by simp [List.filter_cons]]
      rw [dedupAux_cons_mem xs (List.mem_cons_self x seen)]
      exact ih seen
    · rw [show (x :: xs).filter (fun b => decide (b ≠ a)) =
            x :: xs.filter (fun b => decide (b ≠ a)) from by simp [List.filter_cons, hxa]]
      by_cases hx : x ∈ seen
      · rw [dedupAux_cons_mem xs (List.mem_cons_of_mem a hx), dedupAux_cons_mem _ hx]
        exact ih seen
      · rw [dedupAux_cons_not_mem xs (by
            intro hmem
            rcases List.mem_cons.mp hmem with h | h
            · exact hxa h
            · exact hx h),
          dedupAux_cons_not_mem _ hx]
        refine congrArg (x :: ·) ?_
        rw [dedupAux_congr (x :: a :: seen) (a :: x :: seen) xs
          (fun b => by rw [List.mem_cons, List.mem_cons, List.mem_cons, List.mem_cons]; tauto)]
        exact ih (x :: seen)

theorem dedupFirst_cons (a : String) (l : List String) :
    dedupFirst (a :: l) = a :: dedupFirst (l.filter (fun b => decide (b ≠ a))) := by
  show dedupAux [] (a :: l) = _
  rw [dedupAux_cons_not_mem l (List.not_mem_nil a)]
  exact congrArg (a :: ·) (dedupAux_filter a [] l)

/-! ### The three sentiment lexicons are pairwise disjoint -/

theorem neg_not_pos : ∀ w ∈ NEGATIVE_KEYWORDS, w ∉ POSITIVE_KEYWORDS := by decide

theorem neu_not_pos : ∀ w ∈ NEUTRAL_KEYWORDS, w ∉ POSITIVE_KEYWORDS := by decide

theorem neu_not_neg : ∀ w ∈ NEUTRAL_KEYWORDS, w ∉ NEGATIVE_KEYWORDS := by decide

/-! ### The scoring loop counts exact lexicon hits -/

theorem positiveScore_eq (ws : List (List Char)) : positiveScore ws = positiveHits ws :=
  rfl

theorem negativeScore_eq (ws : List (List Char)) : negativeScore ws = negativeHits ws := by
  unfold negativeScore negativeHits
  refine congrArg (fun p => List.countP p ws) (funext fun w => ?_)
  by_cases h : w ∈ NEGATIVE_KEYWORDS
  · simp [h, neg_not_pos w h]
  · simp [h]

theorem neutralScore_eq (ws : List (List Char)) : neutralScore ws = neutralHits ws := by
  unfold neutralScore neutralHits
  refine congrArg (fun p => List.countP p ws) (funext fun w => ?_)
  by_cases h : w ∈ NEUTRAL_KEYWORDS
  · simp [h, neu_not_pos w h, neu_not_neg w h]
  · simp [h]

/-- The decision of `sentimentDecision` written with the zero test of the
specification: all three counters are zero exactly when their sum is. -/
theorem sentimentDecision_spec (p n m : ℕ) :
    sentimentDecision p n m =
      if p = 0 ∧ n = 0 ∧ m = 0 then (Sentiment.neutral, (0.5 : ℚ))
      else if n < p then
        (.positive, min 0.95 (0.5 + ((p : ℚ) / ((p + n + m : ℕ) : ℚ)) * 0.5))
      else if p < n then
        (.negative, min 0.95 (0.5 + ((n : ℚ) / ((p + n + m : ℕ) : ℚ)) * 0.5))
      else (.neutral, 0.6) := by
  unfold sentimentDecision
  by_cases h : p + n + m = 0
  · rw [if_pos h, if_pos (show p = 0 ∧ n = 0 ∧ m = 0 by omega)]
  · rw [if_neg h, if_neg (show ¬(p = 0 ∧ n = 0 ∧ m = 0) by omega)]

/-- The confidence produced by the decision always lies in [0.5, 0.95]. -/
theorem sentimentDecision_confidence_bounds (p n m : ℕ) :
    0.5 ≤ (sentimentDecision p n m).2 ∧ (sentimentDecision p n m).2 ≤ 0.95 := by
  unfold sentimentDecision
  by_cases h0 : p + n + m = 0
  · rw [if_pos h0]
    constructor <;> norm_num
  · rw [if_neg h0]
    by_cases h1 : n < p
    · rw [if_pos h1]
      constructor
      · show (0.5 : ℚ) ≤ min 0.95 (0.5 + ((p : ℚ) / ((p + n + m : ℕ) : ℚ)) * 0.5)
        refine le_min (by norm_num) ?_
        have hx : (0 : ℚ) ≤ ((p : ℚ) / ((p + n + m : ℕ) : ℚ)) * 0.5 := by positivity
        linarith
      · exact min_le_left _ _
    · rw [if_neg h1]
      by_cases h2 : p < n
      · rw [if_pos h2]
        constructor
        · show (0.5 : ℚ) ≤ min 0.95 (0.5 + ((n : ℚ) / ((p + n + m : ℕ) : ℚ)) * 0.5)
          refine le_min (by norm_num) ?_
          have hx : (0 : ℚ) ≤ ((n : ℚ) / ((p + n + m : ℕ) : ℚ)) * 0.5 := by positivity
          linarith
        · exact min_le_left _ _
      · rw [if_neg h2]
        constructor <;> norm_num

/-! ### The sentiment tally equals per-bucket filtering -/

theorem foldl_sentimentStep (rs : List ResponseItem) (a b c : ℕ) :
    rs.foldl sentimentStep (a, b, c) =
      (a + (rs.filter (fun r => decide (r.sentiment = some .positive))).length,
       b + (rs.filter (fun r => decide (r.sentiment = some .neutral))).length,
       c + (rs.filter (fun r => decide (r.sentiment = some .negative))).length) := by
  induction rs generalizing a b c with
  | nil => simp
  | cons r rest ih =>
    rw [List.foldl_cons]
    rcases hr : r.sentiment with _ | s
    · rw [show sentimentStep (a, b, c) r = (a, b, c) from by simp [sentimentStep, hr]]
      rw [ih a b c]
      simp [List.filter_cons, hr]
    · cases s
      · rw [show sentimentStep (a, b, c) r = (a + 1, b, c) from by simp [sentimentStep, hr]]
        rw [ih (a + 1) b c]
        simp [List.filter_cons, hr]
        omega
      · rw [show sentimentStep (a, b, c) r = (a, b + 1, c) from by simp [sentimentStep, hr]]
        rw [ih a (b + 1) c]
        simp [List.filter_cons, hr]
        omega
      · rw [show sentimentStep (a, b, c) r = (a, b, c + 1) from by simp [sentimentStep, hr]]
        rw [ih a b (c + 1)]
        simp [List.filter_cons, hr]
        omega

theorem sentimentCounts_eq_filters (rs : List ResponseItem) :
    sentimentCounts rs =
      ((rs.filter (fun r => decide (r.sentiment = some .positive))).length,
       (rs.filter (fun r => decide (r.sentiment = some .neutral))).length,
       (rs.filter (fun r => decide (r.sentiment = some .negative))).length) := by
  have h := foldl_sentimentStep rs 0 0 0
  simpa [sentimentCounts] using h

/-! ### The trend computations agree -/

theorem sentimentTrend_eq_spec (rs : List ResponseItem) :
    sentimentTrend rs = sentimentTrendSpec rs := by
  have hspec : sentimentTrendSpec rs =
      if rs.drop (rs.length - 10) = [] ∨ rs.take (rs.length - 10) = [] then .stable
      else
        if positiveFraction (rs.take (rs.length - 10)) + 0.1 <
            positiveFraction (rs.drop (rs.length - 10)) then .improving
        else if positiveFraction (rs.drop (rs.length - 10)) <
            positiveFraction (rs.take (rs.length - 10)) - 0.1 then .declining
        else .stable := rfl
  have hcode : sentimentTrend rs =
      if rs.length = 0 then .stable
      else if 0 < (rs.drop (rs.length - 10)).length ∧ 0 < (rs.take (rs.length - 10)).length then
        if positiveFraction (rs.take (rs.length - 10)) + 0.1 <
            positiveFraction (rs.drop (rs.length - 10)) then .improving
        else if positiveFraction (rs.drop (rs.length - 10)) <
            positiveFraction (rs.take (rs.length - 10)) - 0.1 then .declining
        else .stable
      else .stable := rfl
  rw [hspec, hcode]
  by_cases h0 : rs.length = 0
  · rw [if_pos h0]
    have hnil : rs = [] := List.length_eq_zero.mp h0
    subst hnil
    simp
  · rw [if_neg h0]
    by_cases hc : 0 < (rs.drop (rs.length - 10)).length ∧ 0 < (rs.take (rs.length - 10)).length
    · rw [if_pos hc,
        if_neg (show ¬(rs.drop (rs.length - 10) = [] ∨ rs.take (rs.length - 10) = []) by
          rw [List.length_pos, List.length_pos] at hc
          tauto)]
    · rw [if_neg hc,
        if_pos (show rs.drop (rs.length - 10) = [] ∨ rs.take (rs.length - 10) = [] by
          rw [List.length_pos, List.length_pos] at hc
          tauto)]

/-! ### Keys of the keyword frequency table -/

theorem bump_cons (k k' : List Char) (n : ℕ) (rest : List (List Char × ℕ)) :
    bump k ((k', n) :: rest) =
      if k = k' then (k', n + 1) :: rest else (k', n) :: bump k rest := rfl

theorem bump_keys (k : List Char) (m : List (List Char × ℕ)) :
    (bump k m).map (fun p => p.1) =
      if k ∈ m.map (fun p => p.1) then m.map (fun p => p.1)
      else m.map (fun p => p.1) ++ [k] := by
  induction m with
  | nil => simp [bump]
  | cons y ys ih =>
    obtain ⟨k', n⟩ := y
    rw [bump_cons]
    by_cases hk : k = k'
    · subst hk
      rw [if_pos rfl]
      simp
    · rw [if_neg hk, List.map_cons, List.map_cons, ih]
      by_cases hmem : k ∈ ys.map (fun p => p.1)
      · rw [if_pos hmem, if_pos (List.mem_cons_of_mem _ hmem)]
      · rw [if_neg hmem, if_neg (by
          intro hmm
          rcases List.mem_cons.mp hmm with h | h
          · exact hk h
          · exact hmem h)]
        rfl

theorem foldl_bump_keys_nodup (ws : List (List Char)) :
    ∀ m : List (List Char × ℕ), (m.map (fun p => p.1)).Nodup →
      ((ws.foldl (fun m w => bump w m) m).map (fun p => p.1)).Nodup := by
  induction ws with
  | nil => intro m h; simpa using h
  | cons w rest ih =>
    intro m h
    rw [List.foldl_cons]
    apply ih
    rw [bump_keys]
    by_cases hmem : w ∈ m.map (fun p => p.1)
    · rwa [if_pos hmem]
    · rw [if_neg hmem, List.nodup_append]
      refine ⟨h, List.nodup_singleton w, fun a ha hb => ?_⟩
      rw [List.mem_singleton] at hb
      subst hb
      exact hmem ha

theorem countOcc_keys_nodup (ws : List (List Char)) :
    ((countOcc ws).map (fun p => p.1)).Nodup :=
  foldl_bump_keys_nodup ws [] (by simp)

theorem foldl_bump_keys_sub (ws : List (List Char)) :
    ∀ (m : List (List Char × ℕ)) (x : List Char),
      x ∈ (ws.foldl (fun m w => bump w m) m).map (fun p => p.1) →
      x ∈ m.map (fun p => p.1) ∨ x ∈ ws := by
  induction ws with
  | nil => intro m x h; exact Or.inl h
  | cons w rest ih =>
    intro m x h
    rw [List.foldl_cons] at h
    rcases ih (bump w m) x h with h1 | h1
    · rw [bump_keys] at h1
      by_cases hmem : w ∈ m.map (fun p => p.1)
      · rw [if_pos hmem] at h1
        exact Or.inl h1
      · rw [if_neg hmem] at h1
        rcases List.mem_append.mp h1 with h2 | h2
        · exact Or.inl h2
        · rw [List.mem_singleton] at h2
          subst h2
          exact Or.inr (List.mem_cons_self _ _)
    · exact Or.inr (List.mem_cons_of_mem _ h1)

theorem countOcc_keys_sub (ws : List (List Char)) (x : List Char) :
    x ∈ (countOcc ws).map (fun p => p.1) → x ∈ ws := by
  intro h
  rcases foldl_bump_keys_sub ws [] x h with h1 | h1
  · simp at h1
  · exact h1

/-! ### Characters of the tokens produced by the splitter -/

theorem splitWsAux_nil (cur : List Char) : splitWsAux cur [] = [cur.reverse] := rfl

theorem splitWsAux_cons (cur : List Char) (c : Char) (cs : List Char) :
    splitWsAux cur (c :: cs) =
      if c.isWhitespace then cur.reverse :: splitWsAux [] cs
      else splitWsAux (c :: cur) cs := rfl

theorem splitWsAux_chars (P : Char → Prop) (s : List Char) :
    ∀ cur : List Char, (∀ c ∈ cur, P c) →
      (∀ c ∈ s, ¬(c.isWhitespace = true) → P c) →
      ∀ w ∈ splitWsAux cur s, ∀ c ∈ w, P c := by
  induction s with
  | nil =>
    intro cur hcur _ w hw c hc
    rw [splitWsAux_nil, List.mem_singleton] at hw
    subst hw
    exact hcur c (List.mem_reverse.mp hc)
  | cons c0 cs ih =>
    intro cur hcur hs w hw c hc
    rw [splitWsAux_cons] at hw
    by_cases hws : c0.isWhitespace = true
    · rw [if_pos hws] at hw
      rcases List.mem_cons.mp hw with rfl | hw2
      · exact hcur c (List.mem_reverse.mp hc)
      · exact ih [] (by simp) (fun d hd hnd => hs d (List.mem_cons_of_mem _ hd) hnd) w hw2 c hc
    · rw [if_neg hws] at hw
      refine ih (c0 :: cur) ?_ (fun d hd hnd => hs d (List.mem_cons_of_mem _ hd) hnd) w hw c hc
      intro d hd
      rcases List.mem_cons.mp hd with rfl | hd2
      · exact hs d (List.mem_cons_self _ _) hws
      · exact hcur d hd2

/-! ### Lower-casing is idempotent on the model characters -/

theorem toNat_ofNat_lt {n : ℕ} (h : n < 55296) : (Char.ofNat n).toNat = n := by
  unfold Char.ofNat
  rw [dif_pos (Or.inl h)]
  rfl

theorem toLowerChar_not_upper (c : Char) : isAsciiUpper (toLowerChar c) = false := by
  unfold toLowerChar
  by_cases h : isAsciiUpper c = true
  · rw [if_pos h]
    unfold isAsciiUpper at h ⊢
    have h1 : 65 ≤ c.toNat ∧ c.toNat ≤ 90 := by simpa using h
    have h2 : (Char.ofNat (c.toNat + 32)).toNat = c.toNat + 32 := toNat_ofNat_lt (by omega)
    have h3 : ¬(c.toNat + 32 ≤ 90) := by omega
    simp [h2, h3]
  · rw [if_neg h]
    simpa using h

theorem toLowerChar_fix {c : Char} (h : isAsciiUpper c = false) : toLowerChar c = c := by
  unfold toLowerChar
  rw [h]
  simp

theorem toLowerChar_idem (c : Char) : toLowerChar (toLowerChar c) = toLowerChar c :=
  toLowerChar_fix (toLowerChar_not_upper c)

theorem mem_cleanText_fixed {text : List Char} {c : Char}
    (hc : c ∈ cleanText text) (hw : ¬(c.isWhitespace = true)) : toLowerChar c = c := by
  unfold cleanText lowerText at hc
  rcases List.mem_map.mp hc with ⟨d, hd, hdc⟩
  rcases List.mem_map.mp hd with ⟨e, _, hde⟩
  unfold cleanChar at hdc
  by_cases hcond : (isWordChar d || d.isWhitespace) = true
  · rw [if_pos hcond] at hdc
    subst hdc
    subst hde
    exact toLowerChar_idem e
  · rw [if_neg hcond] at hdc
    subst hdc
    exact absurd (by decide) hw

/-! ### Properties of the extracted keywords -/

theorem extractKeywords_mem {text k : List Char} (hk : k ∈ extractKeywords text) :
    3 < k.length ∧ k ∉ stopWords ∧ ∀ c ∈ k, toLowerChar c = c := by
  rcases List.mem_map.mp hk with ⟨p, hp, hpk⟩
  have hp2 : p ∈ sortDescBy (fun p => p.2) (keywordTable text) :=
    (List.take_sublist 5 _).subset hp
  have hp3 : p ∈ keywordTable text :=
    (sortDescBy_perm (fun p => p.2) (keywordTable text)).subset hp2
  have hkeys : k ∈ (keywordTable text).map (fun p => p.1) :=
    hpk ▸ List.mem_map_of_mem (fun p => p.1) hp3
  have hkf : k ∈ ((splitWs (cleanText text)).filter (fun w => 3 < w.length)).filter
      (fun w => !decide (w ∈ stopWords)) :=
    countOcc_keys_sub _ k hkeys
  have h1 := List.of_mem_filter hkf
  have hkw := List.mem_of_mem_filter hkf
  have h2 := List.of_mem_filter hkw
  have hsplit : k ∈ splitWs (cleanText text) := List.mem_of_mem_filter hkw
  refine ⟨by simpa using h2, by simpa using h1, ?_⟩
  intro c hc
  exact splitWsAux_chars (fun c => toLowerChar c = c) (cleanText text) [] (by simp)
    (fun d hd hnd => mem_cleanText_fixed hd hnd) k hsplit c hc

theorem extractKeywords_nodup (text : List Char) : (extractKeywords text).Nodup := by
  unfold extractKeywords
  have h1 : ((keywordTable text).map (fun p => p.1)).Nodup := countOcc_keys_nodup _
  have h2 : ((sortDescBy (fun p => p.2) (keywordTable text)).map (fun p => p.1)).Nodup :=
    (((sortDescBy_perm (fun p => p.2) (keywordTable text)).map (fun p => p.1)).nodup_iff).mpr h1
  have h3 : (((sortDescBy (fun p => p.2) (keywordTable text)).take 5).map
      (fun p => p.1)).Sublist
      ((sortDescBy (fun p => p.2) (keywordTable text)).map (fun p => p.1)) :=
    (List.take_sublist 5 (sortDescBy (fun p => p.2) (keywordTable text))).map
      (fun p : List Char × ℕ => p.1)
  exact h2.sublist h3

theorem extractKeywords_length (text : List Char) : (extractKeywords text).length ≤ 5 := by
  unfold extractKeywords
  rw [List.length_map, List.length_take]
  omega

/-! ### The claims -/

/-- C1: for every input string, `analyzeSentiment` tokenizes by
lower-casing, replacing non-word non-whitespace characters with spaces,
splitting on whitespace and dropping tokens of length ≤ 2, counts
exact-match hits in the positive, negative and neutral lexicons, and
decides: all-zero counts give neutral at confidence 0.5; a positive
majority gives positive at `min 0.95 (0.5 + positive/total × 0.5)`; a
negative majority the analogous negative result; otherwise neutral at
confidence 0.6. -/
theorem claim1_sentiment_decision (text : List Char) :
    ((analyzeSentiment text).sentiment, (analyzeSentiment text).confidence) =
      sentimentSpec text := by
  have h : ((analyzeSentiment text).sentiment, (analyzeSentiment text).confidence) =
      sentimentDecision (positiveScore (sentimentTokens text))
        (negativeScore (sentimentTokens text)) (neutralScore (sentimentTokens text)) := rfl
  rw [h, positiveScore_eq, negativeScore_eq, neutralScore_eq, sentimentDecision_spec]
  rfl

/-- C2: `categorizeFeedback` assigns urgency by the first matching rule of
the ordered list (urgent vocabulary → critical; negative with confidence
above 0.8 → high; high-priority vocabulary → medium; negative → medium;
else low), and any text containing the substring "urgent"
(case-insensitively) yields critical urgency regardless of sentiment. -/
theorem claim2_urgency_rules :
    (∀ (text : List Char) (s : SentimentAnalysis),
      (categorizeFeedback text s).urgency = urgencySpec text s) ∧
    (∀ (text : List Char) (s : SentimentAnalysis),
      containsSub (lowerText text) "urgent".data = true →
      (categorizeFeedback text s).urgency = .critical) := by
  constructor
  · intro text s
    rfl
  · intro text s h
    have h1 : (categorizeFeedback text s).urgency = urgencyOf text s := rfl
    rw [h1]
    unfold urgencyOf
    rw [if_pos (show (urgentKeywords.any fun kw => containsSub (lowerText text) kw) = true
      from List.any_eq_true.mpr ⟨"urgent".data, by decide, h⟩)]

/-- Witness for C2: a text containing "URGENT" is assigned critical
urgency even with positive sentiment. -/
theorem claim2_urgency_witness :
    containsSub (lowerText "This is URGENT".data) "urgent".data = true ∧
    (categorizeFeedback "This is URGENT".data
      { sentiment := .positive, confidence := 0.9, categories := [], keywords := [],
        emotions := ⟨0, 0, 0, 0, 0, 0⟩ }).urgency = .critical :=
  ⟨by decide, claim2_urgency_rules.2 "This is URGENT".data
    { sentiment := .positive, confidence := 0.9, categories := [], keywords := [],
      emotions := ⟨0, 0, 0, 0, 0, 0⟩ } (by decide)⟩

/-- C3: `analyzeSentiment` always returns one of the three sentiment
values and a confidence in the closed interval [0.5, 0.95]. -/
theorem claim3_sentiment_range (text : List Char) :
    ((analyzeSentiment text).sentiment = .positive ∨
      (analyzeSentiment text).sentiment = .neutral ∨
      (analyzeSentiment text).sentiment = .negative) ∧
    0.5 ≤ (analyzeSentiment text).confidence ∧
    (analyzeSentiment text).confidence ≤ 0.95 := by
  have h : (analyzeSentiment text).confidence =
      (sentimentDecision (positiveScore (sentimentTokens text))
        (negativeScore (sentimentTokens text)) (neutralScore (sentimentTokens text))).2 := rfl
  refine ⟨?_, ?_, ?_⟩
  · cases hs : (analyzeSentiment text).sentiment
    · exact Or.inl rfl
    · exact Or.inr (Or.inl rfl)
    · exact Or.inr (Or.inr rfl)
  · rw [h]
    exact (sentimentDecision_confidence_bounds _ _ _).1
  · rw [h]
    exact (sentimentDecision_confidence_bounds _ _ _).2

/-- C4: `extractCategories` keeps exactly the categories with positive
whole-word keyword count, sorts them by count descending and takes the
first three, and the sort is stable: the entries of every tie class appear
in the declaration order of the ten categories. -/
theorem claim4_categories_pipeline (text : List Char) :
    extractCategories text = extractCategoriesSpec text ∧
    List.Sorted (fun a b => b.2 ≤ a.2)
      (sortDescBy (fun p => p.2) (foundCategories text)) ∧
    ∀ q : ℕ,
      (sortDescBy (fun p => p.2) (foundCategories text)).filter
          (fun p => decide (p.2 = q)) =
        (foundCategories text).filter (fun p => decide (p.2 = q)) := by
  refine ⟨?_, ?_, ?_⟩
  · unfold extractCategories extractCategoriesSpec
    rw [← List.map_take]
  · exact sortDescBy_sorted (fun p => p.2) (foundCategories text)
  · intro q
    exact sortDescBy_filter (fun p => p.2) (foundCategories text) q

/-- The 20-item example: the positive fraction rises from 0.2 to 0.8, so
the trend is improving. -/
theorem trend_example20 : sentimentTrend exampleTrendItems = .improving := by
  have h0 : ¬(exampleTrendItems.length = 0) := by decide
  have hc : 0 < (exampleTrendItems.drop (exampleTrendItems.length - 10)).length ∧
      0 < (exampleTrendItems.take (exampleTrendItems.length - 10)).length := by decide
  have hfr : ((exampleTrendItems.drop (exampleTrendItems.length - 10)).filter
      (fun r => r.sentiment = some .positive)).length = 8 := by decide
  have hfr2 : (exampleTrendItems.drop (exampleTrendItems.length - 10)).length = 10 := by
    decide
  have hfo : ((exampleTrendItems.take (exampleTrendItems.length - 10)).filter
      (fun r => r.sentiment = some .positive)).length = 2 := by decide
  have hfo2 : (exampleTrendItems.take (exampleTrendItems.length - 10)).length = 10 := by
    decide
  have hrec : positiveFraction (exampleTrendItems.drop (exampleTrendItems.length - 10)) =
      ((8 : ℕ) : ℚ) / ((10 : ℕ) : ℚ) := by
    unfold positiveFraction
    rw [hfr, hfr2]
  have hold : positiveFraction (exampleTrendItems.take (exampleTrendItems.length - 10)) =
      ((2 : ℕ) : ℚ) / ((10 : ℕ) : ℚ) := by
    unfold positiveFraction
    rw [hfo, hfo2]
  have hcode : sentimentTrend exampleTrendItems =
      if exampleTrendItems.length = 0 then .stable
      else if 0 < (exampleTrendItems.drop (exampleTrendItems.length - 10)).length ∧
          0 < (exampleTrendItems.take (exampleTrendItems.length - 10)).length then
        if positiveFraction (exampleTrendItems.take (exampleTrendItems.length - 10)) + 0.1 <
            positiveFraction (exampleTrendItems.drop (exampleTrendItems.length - 10)) then
          .improving
        else if positiveFraction (exampleTrendItems.drop (exampleTrendItems.length - 10)) <
            positiveFraction (exampleTrendItems.take (exampleTrendItems.length - 10)) - 0.1 then
          .declining
        else .stable
      else .stable := rfl
  rw [hcode, if_neg h0, if_pos hc,
    if_pos (show positiveFraction (exampleTrendItems.take (exampleTrendItems.length - 10)) +
        0.1 < positiveFraction (exampleTrendItems.drop (exampleTrendItems.length - 10)) by
      rw [hrec, hold]
      norm_num)]

/-- C5: the `sentimentTrend` of `generateInsights` compares the positive
fraction of the last ten items against that of all earlier items with a
0.1 margin, is stable whenever either window is empty, and in particular a
20-item collection whose first ten are 20% positive and whose last ten are
80% positive is improving. -/
theorem claim5_sentiment_trend :
    (∀ rs : List ResponseItem, sentimentTrend rs = sentimentTrendSpec rs) ∧
    sentimentTrend exampleTrendItems = .improving :=
  ⟨sentimentTrend_eq_spec, trend_example20⟩

/-- C6: the suggested-action list always has at most five entries and no
duplicates, and the deduplication keeps the first occurrence of each
action: it satisfies the first-occurrence recursion equations. -/
theorem claim6_suggested_actions (s : SentimentAnalysis) (category : String)
    (u : Urgency) :
    (generateSuggestedActions s category u).length ≤ 5 ∧
    (generateSuggestedActions s category u).Nodup ∧
    dedupFirst ([] : List String) = [] ∧
    ∀ (a : String) (l : List String),
      dedupFirst (a :: l) = a :: dedupFirst (l.filter (fun b => decide (b ≠ a))) := by
  refine ⟨?_, ?_, rfl, dedupFirst_cons⟩
  · show ((dedupFirst _).take 5).length ≤ 5
    rw [List.length_take]
    omega
  · show ((dedupFirst _).take 5).Nodup
    exact (dedupFirst_nodup _).sublist (List.take_sublist 5 _)

/-- On one item of each sentiment every bucket is `round(100/3) = 33`. -/
theorem overall_example_buckets : overallSentiment exampleOneEach = (33, 33, 33) := by
  have hcounts : sentimentCounts exampleOneEach = (1, 1, 1) := by decide
  have hlen : exampleOneEach.length = 3 := by decide
  have hround : round (((1 : ℕ) : ℚ) / ((3 : ℕ) : ℚ) * 100) = 33 := by
    have h1 : ((1 : ℕ) : ℚ) / ((3 : ℕ) : ℚ) * 100 = 100 / 3 := by norm_num
    rw [h1, round_eq]
    have h2 : (100 : ℚ) / 3 + 1 / 2 = 203 / 6 := by norm_num
    rw [h2]
    exact Int.floor_eq_iff.mpr (by constructor <;> norm_num)
  unfold overallSentiment
  rw [if_neg (by decide), hcounts, hlen]
  show (round (((1 : ℕ) : ℚ) / ((3 : ℕ) : ℚ) * 100),
    round (((1 : ℕ) : ℚ) / ((3 : ℕ) : ℚ) * 100),
    round (((1 : ℕ) : ℚ) / ((3 : ℕ) : ℚ) * 100)) = ((33 : ℤ), (33 : ℤ), (33 : ℤ))
  rw [hround]

/-- C7: for a non-empty collection, every bucket of `overallSentiment` is
`round(count/total × 100)` with each bucket rounded independently, and the
three percentages are not renormalized: on a collection with one item of
each sentiment they sum to 99, not 100. -/
theorem claim7_overall_sentiment :
    (∀ rs : List ResponseItem, rs ≠ [] →
      overallSentiment rs = overallSentimentSpec rs) ∧
    (overallSentiment exampleOneEach).1 + (overallSentiment exampleOneEach).2.1 +
      (overallSentiment exampleOneEach).2.2 ≠ 100 := by
  constructor
  · intro rs hne
    unfold overallSentiment overallSentimentSpec
    rw [if_neg (fun h => hne (List.length_eq_zero.mp h)), sentimentCounts_eq_filters]
  · rw [overall_example_buckets]
    decide

/-- Witness for C7: the percentage formula instantiated on a singleton
collection. -/
theorem claim7_overall_witness :
    ([⟨some .positive, none, false, []⟩] : List ResponseItem) ≠ [] ∧
    overallSentiment [⟨some .positive, none, false, []⟩] =
      overallSentimentSpec [⟨some .positive, none, false, []⟩] :=
  ⟨by decide, claim7_overall_sentiment.1 [⟨some .positive, none, false, []⟩] (by decide)⟩

/-- C8: analyzing the empty string returns neutral sentiment at
confidence 0.5, empty categories and keywords, and all-zero emotion
scores, without failing. -/
theorem claim8_empty_string :
    analyzeSentiment "".data =
      { sentiment := .neutral, confidence := 0.5, categories := [], keywords := [],
        emotions := ⟨0, 0, 0, 0, 0, 0⟩ } := by
  have h : analyzeSentiment "".data = SentimentAnalysis.mk
      (sentimentDecision 0 0 0).1 (sentimentDecision 0 0 0).2
      (extractCategories "".data) (extractKeywords "".data)
      (analyzeEmotions "".data) := rfl
  rw [h, SentimentAnalysis.mk.injEq]
  have hemo : ∀ kws : List String,
      kws.countP (fun kw => containsSub (lowerText "".data) kw.data) = 0 →
      emotionScore (lowerText "".data) kws = 0 := by
    intro kws hk
    unfold emotionScore
    rw [hk]
    norm_num
  have h2 : analyzeEmotions "".data = Emotions.mk
      (emotionScore (lowerText "".data) (emotionKws "joy"))
      (emotionScore (lowerText "".data) (emotionKws "anger"))
      (emotionScore (lowerText "".data) (emotionKws "fear"))
      (emotionScore (lowerText "".data) (emotionKws "sadness"))
      (emotionScore (lowerText "".data) (emotionKws "surprise"))
      (emotionScore (lowerText "".data) (emotionKws "disgust")) := rfl
  refine ⟨rfl, rfl, by decide, by decide, ?_⟩
  rw [h2, Emotions.mk.injEq]
  exact ⟨hemo _ (by decide), hemo _ (by decide), hemo _ (by decide),
    hemo _ (by decide), hemo _ (by decide), hemo _ (by decide)⟩

/-- C9: the keyword list always has at most five pairwise-distinct
entries, each a lower-cased token longer than three characters outside the
stop-word list; in particular the stop word "good" never appears as a
keyword. -/
theorem claim9_keywords (text : List Char) :
    (extractKeywords text).length ≤ 5 ∧
    (extractKeywords text).Nodup ∧
    (∀ k ∈ extractKeywords text,
      3 < k.length ∧ k ∉ stopWords ∧ ∀ c ∈ k, toLowerChar c = c) ∧
    "good".data ∉ extractKeywords text := by
  refine ⟨extractKeywords_length text, extractKeywords_nodup text,
    fun k hk => extractKeywords_mem hk, fun hg => ?_⟩
  exact (extractKeywords_mem hg).2.1 (by decide)

/-- Witness for C9: on a concrete text, "excellent" is extracted and
satisfies the guarantees. -/
theorem claim9_keywords_witness :
    "excellent".data ∈ extractKeywords "Excellent service".data ∧
    (3 < "excellent".data.length ∧ "excellent".data ∉ stopWords ∧
      ∀ c ∈ "excellent".data, toLowerChar c = c) :=
  ⟨by decide,
    (claim9_keywords "Excellent service".data).2.2.1 "excellent".data (by decide)⟩

/-- C10: when the analysis is neutral and its category list is empty or
starts with a category without a dedicated action block, the suggested
actions are empty, whatever the urgency: escalation actions are only added
for negative sentiment. -/
theorem claim10_neutral_no_actions (text : List Char) (s : SentimentAnalysis)
    (h1 : s.sentiment = .neutral)
    (h2 : ∀ c, s.categories.head? = some c →
      c ∉ ["Technical Issues", "Customer Service", "Product Quality",
        "User Experience", "Performance"]) :
    (categorizeFeedback text s).suggestedActions = [] := by
  have hact : (categorizeFeedback text s).suggestedActions =
      generateSuggestedActions s (primaryCategoryOf s.categories)
        (urgencyOf text s) := rfl
  have hcat : categoryActions (primaryCategoryOf s.categories) = [] := by
    unfold primaryCategoryOf
    cases hh : s.categories.head? with
    | none => decide
    | some c =>
      show categoryActions (if c = "" then "General Feedback" else c) = []
      by_cases hce : c = ""
      · rw [if_pos hce]
        decide
      · rw [if_neg hce]
        have hc := h2 c hh
        have hne1 : ¬(c = "Technical Issues") := fun h => hc (by rw [h]; decide)
        have hne2 : ¬(c = "Customer Service") := fun h => hc (by rw [h]; decide)
        have hne3 : ¬(c = "Product Quality") := fun h => hc (by rw [h]; decide)
        have hne4 : ¬(c = "User Experience") := fun h => hc (by rw [h]; decide)
        have hne5 : ¬(c = "Performance") := fun h => hc (by rw [h]; decide)
        unfold categoryActions
        rw [if_neg hne1, if_neg hne2, if_neg hne3, if_neg hne4, if_neg hne5]
  rw [hact]
  unfold generateSuggestedActions
  rw [h1, hcat]
  rw [if_neg (show ¬(Sentiment.neutral = Sentiment.negative) by decide),
    if_neg (show ¬(Sentiment.neutral = Sentiment.positive) by decide)]
  decide

/-- Witness for C10: a neutral analysis whose first category is Pricing
produces no suggested actions even on an urgent text. -/
theorem claim10_neutral_witness :
    (⟨Sentiment.neutral, 0.5, ["Pricing"], [], ⟨0, 0, 0, 0, 0, 0⟩⟩ :
      SentimentAnalysis).sentiment = .neutral ∧
    (categorizeFeedback "urgent problem".data
      ⟨Sentiment.neutral, 0.5, ["Pricing"], [], ⟨0, 0, 0, 0, 0, 0⟩⟩).suggestedActions =
      [] := by
  refine ⟨rfl, claim10_neutral_no_actions "urgent problem".data _ rfl ?_⟩
  intro c hc
  have hcp : c = "Pricing" := by
    have : some "Pricing" = some c := by simpa using hc
    exact (Option.some.injEq _ _ ▸ this).symm
  subst hcp
  decide

end SentimentService
